import Mathlib

/-!
# Console log-signature generator (`internal/console/gen.go`)

A shallow embedding of the generator that enumerates the overloaded `log`
signatures of the debugging console, derives their 4-byte selectors and
renders two output files.

* Go slices are lists; `append(s, x)` is `s ++ [x]`; `make([]T, n)` is
  `List.replicate n zero`; `s[i] = v` is `List.set`.
* `for i, x := range s` is a left fold over `s.enum`.
* The collaborators that live outside the file (`crypto.Keccak256`,
  `console.Addr`, the template engine, the file system, the Unicode tables
  beyond ASCII) are parameters.
* Effects are explicit: `gen` and `run` pass a `World`, the files on disk
  together with the trace of calls made so far, and return the error, if any.
* An index that panics at run time makes the function return `none`.
-/

namespace Console

/-! ## Library primitives -/

/-- Go `strings.Join(elems, sep)`: empty for no element, the element itself for
one, otherwise a builder seeded with the first element to which the separator
and each further element are written in turn. -/
def stringsJoin (elems : List String) (sep : String) : String :=
  match elems with
  | [] => ""
  | [e] => e
  | e :: rest => rest.foldl (fun b s => b ++ sep ++ s) e

/-- Go `[]byte(s)`: the UTF-8 bytes of a string. -/
def bytesOf (s : String) : List UInt8 :=
  s.toUTF8.data.toList

/-- A 32-byte digest: the result type of `crypto.Keccak256`. -/
abbrev Digest := { bs : List UInt8 // bs.length = 32 }

/-- A 20-byte address: Go `common.Address`. -/
abbrev Address := { bs : List UInt8 // bs.length = 20 }

/-- Go `[4]byte`. -/
abbrev Sel4 := UInt8 × UInt8 × UInt8 × UInt8

/-- Go `([4]byte)(d[:4])` on a 32-byte digest. -/
def first4 (d : Digest) : Sel4 :=
  (d.val.get ⟨0, by rw [d.property]; decide⟩,
   d.val.get ⟨1, by rw [d.property]; decide⟩,
   d.val.get ⟨2, by rw [d.property]; decide⟩,
   d.val.get ⟨3, by rw [d.property]; decide⟩)

/-- Go `map[T]struct{}`: the keys that are present, in insertion order. -/
abbrev KeySet (T : Type) := List T

/-- Go `m[v] = struct{}{}`. -/
def KeySet.put {T : Type} [DecidableEq T] (m : KeySet T) (v : T) : KeySet T :=
  if v ∈ m then m else m ++ [v]

/-- Go `_, ok := m[k]`. -/
def KeySet.has {T : Type} [DecidableEq T] (m : KeySet T) (k : T) : Bool :=
  decide (k ∈ m)

/-! ## Package variables -/

def logArgs : List String := ["string", "uint", "address", "bool"]

def setOf {T : Type} [DecidableEq T] (s : List T) : KeySet T :=
  s.foldl (fun m v => m.put v) []

def logArgsSet : KeySet String := setOf logArgs

/-! ## Signature enumeration -/

def genSignatures : List (List String) :=
  let signatures : List (List String) := [
    [],
    ["string"],
    ["uint"],
    ["int"],
    ["bool"],
    ["address"],
    ["bytes"],
    ["bytes1"],
    ["bytes2"],
    ["bytes3"],
    ["bytes4"],
    ["bytes5"],
    ["bytes6"],
    ["bytes7"],
    ["bytes8"],
    ["bytes9"],
    ["bytes10"],
    ["bytes11"],
    ["bytes12"],
    ["bytes13"],
    ["bytes14"],
    ["bytes15"],
    ["bytes16"],
    ["bytes17"],
    ["bytes18"],
    ["bytes19"],
    ["bytes20"],
    ["bytes21"],
    ["bytes22"],
    ["bytes23"],
    ["bytes24"],
    ["bytes25"],
    ["bytes26"],
    ["bytes27"],
    ["bytes28"],
    ["bytes29"],
    ["bytes30"],
    ["bytes31"],
    ["bytes32"]]
  let signatures := logArgs.foldl (fun signatures arg0 =>
    logArgs.foldl (fun signatures arg1 =>
      signatures ++ [[arg0, arg1]]) signatures) signatures
  let signatures := logArgs.foldl (fun signatures arg0 =>
    logArgs.foldl (fun signatures arg1 =>
      logArgs.foldl (fun signatures arg2 =>
        signatures ++ [[arg0, arg1, arg2]]) signatures) signatures) signatures
  let signatures := logArgs.foldl (fun signatures arg0 =>
    logArgs.foldl (fun signatures arg1 =>
      logArgs.foldl (fun signatures arg2 =>
        logArgs.foldl (fun signatures arg3 =>
          signatures ++ [[arg0, arg1, arg2, arg3]]) signatures) signatures) signatures) signatures
  signatures

/-! ## The rendering model -/

set_option linter.dupNamespace false in
structure Args where
  /-- function signature -/
  Sig : String
  /-- 4 bytes selector -/
  Sel : Sel4
  Args : List String
deriving DecidableEq

/-- The Go zero value of `Args`, with which `make([]Args, n)` fills a slice. -/
def Args.zero : Console.Args := { Sig := "", Sel := (0, 0, 0, 0), Args := [] }

structure Model where
  Addr : Address
  Args : List Args

/-- Lines 39-56 of `run`: the signatures are enumerated, one `Args` record is
stored per signature at the signature's own index, and the model is assembled
from the address constant and the records. `Keccak256` stands for
`crypto.Keccak256` and `Addr` for `console.Addr`. -/
def buildModel (Keccak256 : List UInt8 → Digest) (Addr : Address) : Model :=
  let signatures := genSignatures
  let args := signatures.enum.foldl (fun args ia =>
      let sig := "log(" ++ stringsJoin ia.2 "," ++ ")"
      let sel := first4 (Keccak256 (bytesOf sig))
      args.set ia.1 { Sig := sig, Sel := sel, Args := ia.2 })
    (List.replicate signatures.length Args.zero)
  { Addr := Addr, Args := args }

/-! ## Template helpers on `Args` -/

def Args.SignatureArgs (a : Console.Args) : String :=
  let args := a.Args.enum.foldl (fun args ia =>
      if ia.2 = "string" ∨ ia.2 = "bytes" then
        args.set ia.1 (ia.2 ++ " memory p" ++ toString ia.1)
      else
        args.set ia.1 (ia.2 ++ " p" ++ toString ia.1))
    (List.replicate a.Args.length "")
  stringsJoin args ", "

def Args.LogSignature (a : Console.Args) : String :=
  "log(" ++ a.SignatureArgs ++ ")"

def Args.IsLogType (a : Console.Args) : Bool :=
  a.Args.length == 1

def Args.IsLog (a : Console.Args) : Bool :=
  if h : a.Args.length = 0 ∨ a.Args.length ≥ 2 then
    true
  else
    logArgsSet.has (a.Args.get ⟨0, by omega⟩)

/-! ## Title casing (`strings.Title`) -/

/-- The part of Go's Unicode tables that lies outside ASCII. -/
structure Unicode where
  ToTitle : Char → Char
  IsLetter : Char → Bool
  IsDigit : Char → Bool
  IsSpace : Char → Bool

/-- Go `unicode.ToTitle`: within ASCII a lower-case letter loses the distance
between `a` (97) and `A` (65), every other ASCII rune is unchanged; beyond
ASCII the tables decide. -/
def unicodeToTitle (u : Unicode) (r : Char) : Char :=
  if r.toNat ≤ 0x7F then
    if 97 ≤ r.toNat ∧ r.toNat ≤ 122 then Char.ofNat (r.toNat - (97 - 65)) else r
  else
    u.ToTitle r

/-- Go `strings.isSeparator`: ASCII digits (48-57), lower-case letters (97-122),
upper-case letters (65-90) and the underscore (95) are not separators, every
other ASCII rune is; beyond ASCII letters and digits are not separators and
spaces are. -/
def isSeparator (u : Unicode) (r : Char) : Bool :=
  if r.toNat ≤ 0x7F then
    if 48 ≤ r.toNat ∧ r.toNat ≤ 57 then false
    else if 97 ≤ r.toNat ∧ r.toNat ≤ 122 then false
    else if 65 ≤ r.toNat ∧ r.toNat ≤ 90 then false
    else if r.toNat = 95 then false
    else true
  else if u.IsLetter r || u.IsDigit r then false
  else u.IsSpace r

/-- The rune mapping of Go `strings.Title`: a rune that follows a separator is
title-cased, `prev` being the rune before. -/
def titleRunes (u : Unicode) (prev : Char) : List Char → List Char
  | [] => []
  | r :: rs =>
    (if isSeparator u prev then unicodeToTitle u r else r) :: titleRunes u r rs

/-- Go `strings.Title`: the mapping starts with a space (32) as previous rune. -/
def stringsTitle (u : Unicode) (s : String) : String :=
  String.mk (titleRunes u (Char.ofNat 32) s.data)

/-! ## Template helpers that index or title-case -/

/-- Go `LogTypeSignature`; `none` stands for the run-time panic of the index
expression `a.Args[0]` on an empty slice. -/
def Args.LogTypeSignature (u : Unicode) (a : Console.Args) : Option String :=
  match a.Args[0]? with
  | none => none
  | some arg0 => some ("log" ++ stringsTitle u arg0 ++ "(" ++ a.SignatureArgs ++ ")")

def Args.Params (a : Console.Args) : String :=
  let params := a.Args.enum.foldl (fun params ia =>
      params.set ia.1 ("p" ++ toString ia.1))
    (List.replicate a.Args.length "")
  stringsJoin params ", "

def Args.ArgTypes (u : Unicode) (a : Console.Args) : String :=
  let args := a.Args.enum.foldl (fun args ia =>
      args.set ia.1 ("arg" ++ stringsTitle u ia.2))
    (List.replicate a.Args.length "")
  stringsJoin args ", "

/-! ## File generation -/

abbrev Error := String

/-- The parsed template set: `ExecuteTemplate name model` gives the text the
engine writes to the output and the error it returns, if any. -/
structure Template where
  ExecuteTemplate : String → Model → String × Option Error

/-- The files on disk: the content of each file that exists. -/
abbrev Files := String → Option String

/-- One call made on a collaborator. -/
inductive Event where
  | parseFS
  | create (name : String)
  | fprintln (name : String) (line : String)
  | executeTemplate (name : String) (template : String)
  | close (name : String)
deriving DecidableEq

/-- The files on disk and the calls made so far, oldest first. -/
structure World where
  files : Files
  trace : List Event

/-- The collaborators of `run`. -/
structure Env where
  Keccak256 : List UInt8 → Digest
  Addr : Address
  /-- result of `template.New("").ParseFS(templates, "*")` -/
  ParseFS : Except Error Template
  /-- the error of `os.Create name` on the current files, if it fails -/
  Create : Files → String → Option Error

def Files.write (fs : Files) (name content : String) : Files :=
  fun n => if n = name then some content else fs n

/-- A write to an open file: the text is added at the end. -/
def Files.append (fs : Files) (name text : String) : Files :=
  fs.write name ((fs name).getD "" ++ text)

/-- The generated-file marker that `gen` prints. -/
def marker : String := "// Code generated by go generate; DO NOT EDIT."

def gen (env : Env) (name : String) (tmpl : Template) (model : Model) (w : World) :
    World × Option Error :=
  let w : World := { w with trace := w.trace ++ [Event.create name] }
  match env.Create w.files name with
  | some err => (w, some err)
  | none =>
    -- a successful os.Create leaves the file empty
    let w : World := { w with files := w.files.write name "" }
    -- fmt.Fprintln writes the marker and a newline; its results are discarded
    let w : World :=
      { files := w.files.append name (marker ++ "\n"),
        trace := w.trace ++ [Event.fprintln name marker] }
    let out := tmpl.ExecuteTemplate (name ++ ".tmpl") model
    let w : World :=
      { files := w.files.append name out.1,
        trace := w.trace ++ [Event.executeTemplate name (name ++ ".tmpl")] }
    -- the deferred f.Close()
    let w : World := { w with trace := w.trace ++ [Event.close name] }
    (w, out.2)

def run (env : Env) (w : World) : World × Option Error :=
  let w : World := { w with trace := w.trace ++ [Event.parseFS] }
  match env.ParseFS with
  | .error err => (w, some err)
  | .ok tmpl =>
    let model := buildModel env.Keccak256 env.Addr
    match gen env "args.go" tmpl model w with
    | (w, some err) => (w, some err)
    | (w, none) =>
      match gen env "console.sol" tmpl model w with
      | (w, some err) => (w, some err)
      | (w, none) => (w, none)

/-- Go `main`: the exit status is 1 when `run` returns an error, after
printing it, and 0 otherwise. -/
def main (env : Env) (w : World) : World × Nat :=
  match run env w with
  | (w, some _) => (w, 1)
  | (w, none) => (w, 0)

/-! ## Reference definitions, written from the specification -/

/-- The Cartesian `k`-th power of a vocabulary in odometer order: the leftmost
position varies slowest and the rightmost fastest. -/
def specPower (vocab : List String) : Nat → List (List String)
  | 0 => [[]]
  | k + 1 => vocab.flatMap fun t => (specPower vocab k).map fun rest => t :: rest

/-- The 38 single-type names: `string, uint, int, bool, address, bytes`, then
`bytes1` to `bytes32`. -/
def specSingleTypes : List String :=
  ["string", "uint", "int", "bool", "address", "bytes"] ++
    (List.range 32).map fun n => "bytes" ++ toString (n + 1)

/-- The 38 one-element signatures. -/
def specSingles : List (List String) :=
  specSingleTypes.map fun t => [t]

/-- The selector entry the specification derives from one signature: the
canonical text, the first four bytes of its hash, and the signature itself. -/
def specEntry (hash : List UInt8 → Digest) (argTuple : List String) : Args :=
  { Sig := "log(" ++ String.intercalate "," argTuple ++ ")",
    Sel := first4 (hash (bytesOf ("log(" ++ String.intercalate "," argTuple ++ ")"))),
    Args := argTuple }

/-- The bytes of an ASCII text: one byte per character, its code point. -/
def specAsciiBytes (s : String) : List UInt8 :=
  s.data.map fun c => UInt8.ofNat c.toNat

/-- The four bytes of a selector, in order. -/
def Sel4.toList (s : Sel4) : List UInt8 :=
  [s.1, s.2.1, s.2.2.1, s.2.2.2]

/-- The 34 one-element signatures whose type is not combinable: `int`, `bytes`
and `bytes1` to `bytes32`. -/
def specNonLogSingles : List (List String) :=
  (["int", "bytes"] ++ (List.range 32).map fun n => "bytes" ++ toString (n + 1)).map
    fun t => [t]

/-- The position of a type name in the order string < uint < address < bool. -/
def specRank (t : String) : Nat :=
  ["string", "uint", "address", "bool"].indexOf t

/-- What a generated file holds: the marker line and then the rendering of the
template named after the file. -/
def specContent (tmpl : Template) (model : Model) (name : String) : String :=
  "// Code generated by go generate; DO NOT EDIT." ++ "\n"
    ++ (tmpl.ExecuteTemplate (name ++ ".tmpl") model).1

/-- The calls of one complete file generation, in order. -/
def specGenTrace (name : String) : List Event :=
  [Event.create name, Event.fprintln name "// Code generated by go generate; DO NOT EDIT.",
    Event.executeTemplate name (name ++ ".tmpl"), Event.close name]

/-- The comma, code point 44. -/
def comma : Char := Char.ofNat 44

/-- A well-formed type name: not empty and without a comma. -/
def specWellFormed (t : String) : Prop :=
  t ≠ "" ∧ comma ∉ t.data

/-- An ASCII letter or digit. -/
def specAlnum (c : Char) : Bool :=
  (48 ≤ c.toNat && c.toNat ≤ 57) || (97 ≤ c.toNat && c.toNat ≤ 122)
    || (65 ≤ c.toNat && c.toNat ≤ 90)

/-- The type name with its first letter in upper case. -/
def specCapitalize (t : String) : String :=
  match t.data with
  | [] => ""
  | c :: cs => String.mk (c.toUpper :: cs)

/-! ## Sample collaborators, used to instantiate the theorems -/

/-- A stand-in digest function: the input padded with zero bytes and cut to 32 bytes. -/
def sampleHash (bs : List UInt8) : Digest :=
  ⟨(bs ++ List.replicate 32 0).take 32, by simp⟩

/-- A stand-in digest function that depends on every input byte: byte `i` is a
rolling sum of the input plus `37 * i`. -/
def mixHash (bs : List UInt8) : Digest :=
  ⟨(List.range 32).map fun i =>
      UInt8.ofNat (bs.foldl (fun acc b => (acc * 31 + b.toNat) % 256) 7 + 37 * i),
    by simp⟩

/-- A stand-in address: twenty zero bytes. -/
def sampleAddr : Address :=
  ⟨List.replicate 20 0, by simp⟩

/-- Stand-in Unicode tables: nothing beyond ASCII is a letter, digit or space. -/
def sampleUnicode : Unicode :=
  { ToTitle := id, IsLetter := fun _ => false, IsDigit := fun _ => false,
    IsSpace := fun _ => false }

/-- A stand-in template set: every template renders its own name and succeeds. -/
def sampleTemplate : Template :=
  { ExecuteTemplate := fun name _ => ("rendered " ++ name, none) }

/-- A stand-in environment in which every step succeeds. -/
def sampleEnv : Env :=
  { Keccak256 := sampleHash, Addr := sampleAddr, ParseFS := .ok sampleTemplate,
    Create := fun _ _ => none }

/-- A stand-in environment in which `console.sol` cannot be created. -/
def deniedEnv : Env :=
  { Keccak256 := sampleHash, Addr := sampleAddr, ParseFS := .ok sampleTemplate,
    Create := fun _ name => if name = "console.sol" then some "permission denied" else none }

/-- The world before the generator runs: no file, no call. -/
def emptyWorld : World :=
  { files := fun _ => none, trace := [] }

/-! ## Loop lemmas -/

theorem foldl_append_flatMap {α β : Type} (F : α → List β) (l : List α) (acc : List β) :
    l.foldl (fun s x => s ++ F x) acc = acc ++ l.flatMap F := by
  induction l generalizing acc with
  | nil => simp
  | cons x xs ih => simp [List.foldl_cons, ih, List.flatMap_cons, List.append_assoc]

theorem genSignatures_blocks :
    genSignatures = ([] :: specSingles) ++ specPower logArgs 2 ++ specPower logArgs 3
      ++ specPower logArgs 4 := by
  have hs : ([] :: specSingles) = [
    [], ["string"], ["uint"], ["int"], ["bool"], ["address"], ["bytes"],
    ["bytes1"], ["bytes2"], ["bytes3"], ["bytes4"], ["bytes5"], ["bytes6"], ["bytes7"],
    ["bytes8"], ["bytes9"], ["bytes10"], ["bytes11"], ["bytes12"], ["bytes13"], ["bytes14"],
    ["bytes15"], ["bytes16"], ["bytes17"], ["bytes18"], ["bytes19"], ["bytes20"], ["bytes21"],
    ["bytes22"], ["bytes23"], ["bytes24"], ["bytes25"], ["bytes26"], ["bytes27"], ["bytes28"],
    ["bytes29"], ["bytes30"], ["bytes31"], ["bytes32"]] := by decide
  have h2 : (logArgs.flatMap fun arg0 => logArgs.flatMap fun arg1 => [[arg0, arg1]])
      = specPower logArgs 2 := by
    simp [specPower, List.map_flatMap]
  have h3 : (logArgs.flatMap fun arg0 => logArgs.flatMap fun arg1 =>
      logArgs.flatMap fun arg2 => [[arg0, arg1, arg2]]) = specPower logArgs 3 := by
    simp [specPower, List.map_flatMap]
  have h4 : (logArgs.flatMap fun arg0 => logArgs.flatMap fun arg1 =>
      logArgs.flatMap fun arg2 => logArgs.flatMap fun arg3 => [[arg0, arg1, arg2, arg3]])
      = specPower logArgs 4 := by
    simp [specPower, List.map_flatMap]
  rw [hs, ← h2, ← h3, ← h4]
  unfold genSignatures
  simp only [foldl_append_flatMap]

theorem foldl_set_enumFrom {α β : Type} (step : List β → Nat × α → List β) (f : Nat → α → β)
    (hstep : ∀ acc ia, step acc ia = acc.set ia.1 (f ia.1 ia.2)) (xs : List α) :
    ∀ (k : Nat) (pre rest : List β), pre.length = k → rest.length = xs.length →
      (xs.enumFrom k).foldl step (pre ++ rest)
        = pre ++ (xs.enumFrom k).map fun ia => f ia.1 ia.2 := by
  induction xs with
  | nil =>
    intro k pre rest _ hrest
    have : rest = [] := List.length_eq_zero.mp hrest
    simp [this]
  | cons x xs ih =>
    intro k pre rest hpre hrest
    cases rest with
    | nil => simp at hrest
    | cons r rest =>
      have hlen : rest.length = xs.length := by simpa using hrest
      have hset : (pre ++ r :: rest).set k (f k x) = (pre ++ [f k x]) ++ rest := by
        subst hpre
        simp
      rw [List.enumFrom_cons, List.foldl_cons, hstep, hset,
        ih (k + 1) (pre ++ [f k x]) rest (by simp [hpre]) hlen]
      simp

/-- A `for i, x := range xs` loop that stores `f i x` at index `i` of a slice made
with the length of `xs` computes the indexed map of `f` over `xs`. -/
theorem foldl_set_enum {α β : Type} (step : List β → Nat × α → List β) (f : Nat → α → β)
    (hstep : ∀ acc ia, step acc ia = acc.set ia.1 (f ia.1 ia.2)) (xs : List α) (z : β) :
    xs.enum.foldl step (List.replicate xs.length z) = xs.enum.map fun ia => f ia.1 ia.2 := by
  have h := foldl_set_enumFrom step f hstep xs 0 [] (List.replicate xs.length z) rfl (by simp)
  simpa [List.enum] using h

theorem map_enumFrom_snd {α β : Type} (g : α → β) (xs : List α) (k : Nat) :
    (xs.enumFrom k).map (fun ia => g ia.2) = xs.map g := by
  induction xs generalizing k with
  | nil => rfl
  | cons x xs ih => simp [List.enumFrom_cons, ih]

theorem intercalate_go_eq_foldl (sep : String) (rest : List String) (acc : String) :
    String.intercalate.go acc sep rest = rest.foldl (fun b s => b ++ sep ++ s) acc := by
  induction rest generalizing acc with
  | nil => rfl
  | cons x xs ih => simp [String.intercalate.go, ih]

/-- The model of Go `strings.Join` agrees with `String.intercalate`. -/
theorem stringsJoin_eq_intercalate (elems : List String) (sep : String) :
    stringsJoin elems sep = String.intercalate sep elems := by
  match elems with
  | [] => rfl
  | [e] => rfl
  | e :: x :: rest =>
    simp [stringsJoin, String.intercalate, intercalate_go_eq_foldl]

theorem first4_toList (d : Digest) : (first4 d).toList = d.val.take 4 := by
  obtain ⟨bs, hbs⟩ := d
  match bs, hbs with
  | b0 :: b1 :: b2 :: b3 :: rest, _ => rfl

/-- The record loop of `run` stores, for every signature, the entry derived from it. -/
theorem buildModel_args (Keccak256 : List UInt8 → Digest) (Addr : Address) :
    (buildModel Keccak256 Addr).Args = genSignatures.map (specEntry Keccak256) := by
  unfold buildModel
  simp only
  rw [foldl_set_enum _ (fun _ a => specEntry Keccak256 a)
    (fun acc ia => by simp [specEntry, stringsJoin_eq_intercalate])]
  exact map_enumFrom_snd (specEntry Keccak256) genSignatures 0

theorem isLogType_congr (a b : Args) (h : a.Args = b.Args) : a.IsLogType = b.IsLogType := by
  simp [Args.IsLogType, h]

theorem isLog_congr (a b : Args) (h : a.Args = b.Args) : a.IsLog = b.IsLog := by
  obtain ⟨_, _, xs⟩ := a
  obtain ⟨_, _, ys⟩ := b
  simp only at h
  subst h
  rfl

theorem mem_specPower (vocab : List String) (k : Nat) (t : List String) :
    t ∈ specPower vocab k ↔ t.length = k ∧ ∀ x ∈ t, x ∈ vocab := by
  induction k generalizing t with
  | zero =>
    simp only [specPower, List.mem_singleton]
    constructor
    · rintro rfl
      simp
    · rintro ⟨h, -⟩
      exact List.length_eq_zero.mp h
  | succ k ih =>
    simp only [specPower, List.mem_flatMap, List.mem_map]
    constructor
    · rintro ⟨x, hx, rest, hrest, rfl⟩
      obtain ⟨hl, hall⟩ := (ih rest).mp hrest
      refine ⟨by simp [hl], ?_⟩
      intro y hy
      rcases List.mem_cons.mp hy with rfl | hy
      · exact hx
      · exact hall y hy
    · rintro ⟨hl, hall⟩
      match t, hl, hall with
      | x :: rest, hl, hall =>
        refine ⟨x, hall x (by simp), rest, (ih rest).mpr ⟨by simpa using hl, ?_⟩, rfl⟩
        intro y hy
        exact hall y (List.mem_cons_of_mem _ hy)

/-- Odometer order is lexicographic order: when the vocabulary is listed in
increasing rank, every Cartesian power is strictly increasing in the
lexicographic order of the ranks. -/
theorem specPower_lex (vocab : List String) (rank : String → Nat)
    (hv : vocab.Pairwise fun a b => rank a < rank b) (k : Nat) :
    (specPower vocab k).Pairwise
      (fun a b => List.Lex (· < ·) (a.map rank) (b.map rank)) := by
  induction k with
  | zero => simp [specPower]
  | succ k ih =>
    simp only [specPower]
    rw [List.pairwise_flatMap]
    refine ⟨fun t _ => ?_, ?_⟩
    · rw [List.pairwise_map]
      exact ih.imp fun h => by simpa using List.Lex.cons h
    · refine hv.imp fun {a b} hab x hx y hy => ?_
      obtain ⟨x1, -, rfl⟩ := List.mem_map.mp hx
      obtain ⟨y1, -, rfl⟩ := List.mem_map.mp hy
      simpa using List.Lex.rel hab

theorem logArgsSet_eq : logArgsSet = ["string", "uint", "address", "bool"] := by
  decide

set_option maxRecDepth 100000 in
theorem genSignatures_length_counts :
    genSignatures.length = 375 ∧
    genSignatures.countP (fun s => s.length == 0) = 1 ∧
    genSignatures.countP (fun s => s.length == 1) = 38 ∧
    genSignatures.countP (fun s => s.length == 2) = 16 ∧
    genSignatures.countP (fun s => s.length == 3) = 64 ∧
    genSignatures.countP (fun s => s.length == 4) = 256 := by
  rw [genSignatures_blocks]
  decide

theorem isLog_specEntry (hash : List UInt8 → Digest) (s : List String) :
    (specEntry hash s).IsLog = Args.IsLog { Args.zero with Args := s } :=
  isLog_congr _ _ rfl

theorem countP_entries (hash : List UInt8 → Digest) (Addr : Address)
    (p : Args → Bool) (q : List String → Bool) (hpq : ∀ s, p (specEntry hash s) = q s) :
    (buildModel hash Addr).Args.countP p = genSignatures.countP q := by
  rw [buildModel_args, List.countP_map]
  exact congrArg (fun r => List.countP r genSignatures) (funext hpq)

theorem filter_entries (hash : List UInt8 → Digest) (Addr : Address)
    (p : Args → Bool) (q : List String → Bool) (hpq : ∀ s, p (specEntry hash s) = q s) :
    ((buildModel hash Addr).Args.filter p).map (fun e => e.Args) = genSignatures.filter q := by
  rw [buildModel_args, List.filter_map, List.map_map]
  have hcomp : (p ∘ specEntry hash) = q := funext hpq
  rw [hcomp]
  exact List.map_id _

set_option maxRecDepth 100000 in
theorem genSignatures_isLog_facts :
    genSignatures.countP (fun s => Args.IsLog { Args.zero with Args := s }) = 341 ∧
    genSignatures.countP (fun s => !Args.IsLog { Args.zero with Args := s }) = 34 ∧
    genSignatures.filter (fun s => !Args.IsLog { Args.zero with Args := s })
      = specNonLogSingles ∧
    genSignatures.countP (fun s => s.length == 0 || decide (s.length ≥ 2)) = 337 ∧
    genSignatures.filter
        (fun s => Args.IsLog { Args.zero with Args := s } && s.length == 1)
      = [["string"], ["uint"], ["bool"], ["address"]] := by
  rw [genSignatures_blocks]
  decide

/-- The indexed map computed by a range loop, written position by position. -/
theorem map_enum_eq_ofFn {α β : Type} (f : Nat → α → β) (xs : List α) :
    xs.enum.map (fun ia => f ia.1 ia.2) = List.ofFn fun i : Fin xs.length => f i.val (xs.get i) := by
  apply List.ext_getElem
  · simp
  · intro n h1 h2
    simp

theorem isSeparator_alnum (u : Unicode) (c : Char) (hc : specAlnum c = true) :
    isSeparator u c = false := by
  simp only [specAlnum, Bool.or_eq_true, Bool.and_eq_true, decide_eq_true_eq] at hc
  unfold isSeparator
  have h7 : c.toNat ≤ 0x7F := by omega
  rw [if_pos h7]
  split_ifs <;> first | rfl | omega

theorem unicodeToTitle_alnum (u : Unicode) (c : Char) (hc : specAlnum c = true) :
    unicodeToTitle u c = c.toUpper := by
  simp only [specAlnum, Bool.or_eq_true, Bool.and_eq_true, decide_eq_true_eq] at hc
  unfold unicodeToTitle Char.toUpper
  have h7 : c.toNat ≤ 0x7F := by omega
  rw [if_pos h7]

theorem titleRunes_alnum (u : Unicode) (cs : List Char) :
    ∀ prev : Char, isSeparator u prev = false → (∀ c ∈ cs, specAlnum c = true) →
      titleRunes u prev cs = cs := by
  induction cs with
  | nil => intro _ _ _; rfl
  | cons c cs ih =>
    intro prev hprev hall
    have hc : specAlnum c = true := hall c (List.mem_cons_self _ _)
    simp only [titleRunes, hprev, Bool.false_eq_true, if_false]
    rw [ih c (isSeparator_alnum u c hc) fun d hd => hall d (List.mem_cons_of_mem _ hd)]

/-- On a word of ASCII letters and digits `strings.Title` upper-cases the first
letter and leaves the rest. -/
theorem stringsTitle_alnum (u : Unicode) (t : String) (ht : ∀ c ∈ t.data, specAlnum c = true) :
    stringsTitle u t = specCapitalize t := by
  obtain ⟨cs⟩ := t
  match cs, ht with
  | [], _ => rfl
  | c :: cs, ht =>
    have hc : specAlnum c = true := ht c (List.mem_cons_self _ _)
    have h32 : (Char.ofNat 32).toNat = 32 := by decide
    have hsp : isSeparator u (Char.ofNat 32) = true := by
      simp [isSeparator, h32]
    simp only [stringsTitle, specCapitalize, titleRunes, hsp, if_true]
    rw [unicodeToTitle_alnum u c hc,
      titleRunes_alnum u cs c (isSeparator_alnum u c hc)
        fun d hd => ht d (List.mem_cons_of_mem _ hd)]

theorem specSingleTypes_alnum :
    ∀ t ∈ specSingleTypes, ∀ c ∈ t.data, specAlnum c = true := by
  decide

theorem Files.write_write (fs : Files) (name c d : String) :
    (fs.write name c).write name d = fs.write name d := by
  funext n
  simp only [Files.write]
  split <;> rfl

theorem Files.append_write (fs : Files) (name c t : String) :
    (fs.write name c).append name t = fs.write name (c ++ t) := by
  simp [Files.append, Files.write, Files.write_write]

theorem Files.write_other (fs : Files) (name c n : String) (h : n ≠ name) :
    (fs.write name c) n = fs n := by
  simp [Files.write, h]

theorem Files.write_same (fs : Files) (name c : String) :
    (fs.write name c) name = some c := by
  simp [Files.write]

/-- When `os.Create` fails `gen` returns its error after that one call. -/
theorem gen_create_error (env : Env) (name : String) (tmpl : Template) (model : Model)
    (w : World) (err : Error) (h : env.Create w.files name = some err) :
    gen env name tmpl model w
      = ({ files := w.files, trace := w.trace ++ [Event.create name] }, some err) := by
  simp [gen, h]

/-- When `os.Create` succeeds `gen` leaves the marker line followed by what the
template engine wrote, and returns the engine's result. -/
theorem gen_create_ok (env : Env) (name : String) (tmpl : Template) (model : Model)
    (w : World) (h : env.Create w.files name = none) :
    gen env name tmpl model w
      = ({ files := w.files.write name
              (marker ++ "\n" ++ (tmpl.ExecuteTemplate (name ++ ".tmpl") model).1),
           trace := w.trace ++ [Event.create name, Event.fprintln name marker,
              Event.executeTemplate name (name ++ ".tmpl"), Event.close name] },
         (tmpl.ExecuteTemplate (name ++ ".tmpl") model).2) := by
  simp [gen, h, Files.append_write, List.append_assoc]

/-- The result of `run` when parsing fails. -/
theorem run_parse_error (env : Env) (w : World) (err : Error)
    (h : env.ParseFS = .error err) :
    run env w = ({ files := w.files, trace := w.trace ++ [Event.parseFS] }, some err) := by
  simp [run, h]

/-- After a successful parse `run` is the first `gen`, followed by the second
exactly when the first returned no error. -/
theorem run_parse_ok (env : Env) (w : World) (tmpl : Template)
    (hp : env.ParseFS = .ok tmpl) :
    run env w =
      match gen env "args.go" tmpl (buildModel env.Keccak256 env.Addr)
          { files := w.files, trace := w.trace ++ [Event.parseFS] } with
      | (w1, some err) => (w1, some err)
      | (w1, none) => gen env "console.sol" tmpl (buildModel env.Keccak256 env.Addr) w1 := by
  simp only [run, hp]
  cases hg : gen env "args.go" tmpl (buildModel env.Keccak256 env.Addr)
      { files := w.files, trace := w.trace ++ [Event.parseFS] } with
  | mk w1 e1 =>
    cases e1 with
    | some err => rfl
    | none =>
      simp only
      cases hg2 : gen env "console.sol" tmpl (buildModel env.Keccak256 env.Addr) w1 with
      | mk w2 e2 => cases e2 <;> rfl

theorem run_args_create_error (env : Env) (w : World) (tmpl : Template) (err : Error)
    (hp : env.ParseFS = .ok tmpl) (hc : env.Create w.files "args.go" = some err) :
    run env w
      = ({ files := w.files,
           trace := w.trace ++ [Event.parseFS] ++ [Event.create "args.go"] }, some err) := by
  rw [run_parse_ok env w tmpl hp, gen_create_error env "args.go" tmpl (buildModel env.Keccak256 env.Addr)
    ({ files := w.files, trace := w.trace ++ [Event.parseFS] } : World) err hc]

theorem run_args_execute_error (env : Env) (w : World) (tmpl : Template) (err : Error)
    (hp : env.ParseFS = .ok tmpl) (hc : env.Create w.files "args.go" = none)
    (hx : (tmpl.ExecuteTemplate ("args.go" ++ ".tmpl")
      (buildModel env.Keccak256 env.Addr)).2 = some err) :
    run env w
      = ({ files := w.files.write "args.go"
              (specContent tmpl (buildModel env.Keccak256 env.Addr) "args.go"),
           trace := w.trace ++ [Event.parseFS] ++ specGenTrace "args.go" }, some err) := by
  rw [run_parse_ok env w tmpl hp, gen_create_ok env "args.go" tmpl (buildModel env.Keccak256 env.Addr)
    ({ files := w.files, trace := w.trace ++ [Event.parseFS] } : World) hc, hx]
  rfl

theorem run_console_create_error (env : Env) (w : World) (tmpl : Template) (err : Error)
    (hp : env.ParseFS = .ok tmpl) (hc : env.Create w.files "args.go" = none)
    (hx : (tmpl.ExecuteTemplate ("args.go" ++ ".tmpl")
      (buildModel env.Keccak256 env.Addr)).2 = none)
    (hc2 : env.Create (w.files.write "args.go"
      (specContent tmpl (buildModel env.Keccak256 env.Addr) "args.go")) "console.sol"
        = some err) :
    run env w
      = ({ files := w.files.write "args.go"
              (specContent tmpl (buildModel env.Keccak256 env.Addr) "args.go"),
           trace := w.trace ++ [Event.parseFS] ++ specGenTrace "args.go"
              ++ [Event.create "console.sol"] }, some err) := by
  rw [run_parse_ok env w tmpl hp, gen_create_ok env "args.go" tmpl (buildModel env.Keccak256 env.Addr)
    ({ files := w.files, trace := w.trace ++ [Event.parseFS] } : World) hc, hx]
  exact gen_create_error env "console.sol" tmpl _ _ err hc2

theorem run_console_created (env : Env) (w : World) (tmpl : Template)
    (hp : env.ParseFS = .ok tmpl) (hc : env.Create w.files "args.go" = none)
    (hx : (tmpl.ExecuteTemplate ("args.go" ++ ".tmpl")
      (buildModel env.Keccak256 env.Addr)).2 = none)
    (hc2 : env.Create (w.files.write "args.go"
      (specContent tmpl (buildModel env.Keccak256 env.Addr) "args.go")) "console.sol"
        = none) :
    run env w
      = ({ files := (w.files.write "args.go"
              (specContent tmpl (buildModel env.Keccak256 env.Addr) "args.go")).write
              "console.sol"
              (specContent tmpl (buildModel env.Keccak256 env.Addr) "console.sol"),
           trace := w.trace ++ [Event.parseFS] ++ specGenTrace "args.go"
              ++ specGenTrace "console.sol" },
         (tmpl.ExecuteTemplate ("console.sol" ++ ".tmpl")
            (buildModel env.Keccak256 env.Addr)).2) := by
  rw [run_parse_ok env w tmpl hp, gen_create_ok env "args.go" tmpl (buildModel env.Keccak256 env.Addr)
    ({ files := w.files, trace := w.trace ++ [Event.parseFS] } : World) hc, hx]
  exact gen_create_ok env "console.sol" tmpl _ _ hc2

/-- The error of `gen` is the creation error, or else the execution result. -/
theorem gen_error (env : Env) (name : String) (tmpl : Template) (model : Model) (w : World) :
    (gen env name tmpl model w).2 =
      match env.Create w.files name with
      | some err => some err
      | none => (tmpl.ExecuteTemplate (name ++ ".tmpl") model).2 := by
  cases hc : env.Create w.files name with
  | some err => rw [gen_create_error env name tmpl model w err hc]
  | none => rw [gen_create_ok env name tmpl model w hc]

theorem specPower_nodup (k : Nat) : (specPower logArgs k).Nodup := by
  refine (specPower_lex logArgs specRank (by decide) k).imp ?_
  intro a b hlex hab
  subst hab
  exact List.Lex.to_ne (List.Lex.imp (fun _ _ h => Nat.ne_of_lt h) _ _ hlex) rfl

/-- No signature is enumerated twice: the blocks hold tuples of different
lengths and no block repeats a tuple. -/
theorem genSignatures_nodup : genSignatures.Nodup := by
  rw [genSignatures_blocks]
  have hA : ([] :: specSingles).Nodup := by decide
  have hAlen : ∀ t ∈ ([] :: specSingles), t.length ≤ 1 := by decide
  have hP : ∀ k t, t ∈ specPower logArgs k → t.length = k :=
    fun k t h => ((mem_specPower logArgs k t).mp h).1
  refine List.nodup_append.mpr ⟨List.nodup_append.mpr ⟨List.nodup_append.mpr
    ⟨hA, specPower_nodup 2, ?_⟩, specPower_nodup 3, ?_⟩, specPower_nodup 4, ?_⟩
  · intro t h1 h2
    have := hAlen t h1
    have := hP 2 t h2
    omega
  · intro t h1 h2
    have h3 := hP 3 t h2
    rcases List.mem_append.mp h1 with h | h
    · have := hAlen t h
      omega
    · have := hP 2 t h
      omega
  · intro t h1 h2
    have h4 := hP 4 t h2
    rcases List.mem_append.mp h1 with h | h
    · rcases List.mem_append.mp h with h | h
      · have := hAlen t h
        omega
      · have := hP 2 t h
        omega
    · have := hP 3 t h
      omega

theorem mem_genSignatures_power (k : Nat) (hk : k = 2 ∨ k = 3 ∨ k = 4) (t : List String)
    (ht : t ∈ specPower logArgs k) : t ∈ genSignatures := by
  rw [genSignatures_blocks]
  simp only [List.mem_append]
  rcases hk with rfl | rfl | rfl
  · exact Or.inl (Or.inl (Or.inr ht))
  · exact Or.inl (Or.inr ht)
  · exact Or.inr ht

theorem mem_genSignatures_single (t : String) (ht : t ∈ specSingleTypes) :
    [t] ∈ genSignatures := by
  rw [genSignatures_blocks]
  simp only [List.mem_append]
  refine Or.inl (Or.inl (Or.inl (List.mem_cons_of_mem _ ?_)))
  exact List.mem_map.mpr ⟨t, ht, rfl⟩

theorem intercalate_go_data (sep : String) (l : List String) (acc : String) :
    (String.intercalate.go acc sep l).data
      = acc.data ++ l.flatMap (fun y => sep.data ++ y.data) := by
  induction l generalizing acc with
  | nil => simp [String.intercalate.go]
  | cons x xs ih => simp [String.intercalate.go, ih, List.append_assoc]

/-- The characters of a comma-joined non-empty tuple: the first name, then every
further name behind a comma. -/
theorem stringsJoin_comma_data (x : String) (xs : List String) :
    (stringsJoin (x :: xs) ",").data
      = x.data ++ xs.flatMap (fun y => comma :: y.data) := by
  rw [stringsJoin_eq_intercalate]
  simp only [String.intercalate, intercalate_go_data]
  rfl

theorem commaFree_split (p : List Char) :
    ∀ (q R S : List Char), comma ∉ p → comma ∉ q →
      (R = [] ∨ ∃ r, R = comma :: r) → (S = [] ∨ ∃ r, S = comma :: r) →
      p ++ R = q ++ S → p = q ∧ R = S := by
  induction p with
  | nil =>
    intro q R S _ hq hR hS h
    cases q with
    | nil => exact ⟨rfl, by simpa using h⟩
    | cons c q =>
      exfalso
      rcases hR with rfl | ⟨r, rfl⟩
      · simp at h
      · simp only [List.nil_append, List.cons_append, List.cons.injEq] at h
        exact hq (h.1 ▸ List.mem_cons_self _ _)
  | cons c p ih =>
    intro q R S hp hq hR hS h
    cases q with
    | nil =>
      exfalso
      rcases hS with rfl | ⟨r, rfl⟩
      · simp at h
      · simp only [List.nil_append, List.cons_append, List.cons.injEq] at h
        exact hp (h.1 ▸ List.mem_cons_self _ _)
    | cons d q =>
      simp only [List.cons_append, List.cons.injEq] at h
      obtain ⟨hpq, hRS⟩ := ih q R S (fun hc => hp (List.mem_cons_of_mem _ hc))
        (fun hc => hq (List.mem_cons_of_mem _ hc)) hR hS h.2
      exact ⟨by rw [h.1, hpq], hRS⟩

theorem commaTail_shape (xs : List String) :
    xs.flatMap (fun y => comma :: y.data) = [] ∨
      ∃ r, xs.flatMap (fun y => comma :: y.data) = comma :: r := by
  cases xs with
  | nil => exact Or.inl rfl
  | cons x xs => exact Or.inr ⟨_, rfl⟩

theorem commaTail_injective (xs : List String) :
    ∀ ys : List String, (∀ t ∈ xs, comma ∉ t.data) → (∀ t ∈ ys, comma ∉ t.data) →
      xs.flatMap (fun y => comma :: y.data) = ys.flatMap (fun y => comma :: y.data) →
      xs = ys := by
  induction xs with
  | nil =>
    intro ys _ _ h
    cases ys with
    | nil => rfl
    | cons y ys => simp at h
  | cons x xs ih =>
    intro ys hx hy h
    cases ys with
    | nil => simp at h
    | cons y ys =>
      simp only [List.flatMap_cons, List.cons_append, List.cons.injEq, true_and] at h
      obtain ⟨hxy, hrest⟩ := commaFree_split x.data y.data _ _
        (hx x (List.mem_cons_self _ _)) (hy y (List.mem_cons_self _ _))
        (commaTail_shape xs) (commaTail_shape ys) h
      rw [String.ext hxy, ih ys (fun t ht => hx t (List.mem_cons_of_mem _ ht))
        (fun t ht => hy t (List.mem_cons_of_mem _ ht)) hrest]

/-- Joining with "," loses nothing on tuples of non-empty comma-free names. -/
theorem stringsJoin_comma_injective (a b : List String)
    (ha : ∀ t ∈ a, specWellFormed t) (hb : ∀ t ∈ b, specWellFormed t)
    (h : stringsJoin a "," = stringsJoin b ",") : a = b := by
  have hne : ∀ (y : String) (ys : List String), specWellFormed y →
      (stringsJoin (y :: ys) ",").data ≠ [] := by
    intro y ys hy hd
    rw [stringsJoin_comma_data] at hd
    exact hy.1 (String.ext (List.append_eq_nil.mp hd).1)
  cases a with
  | nil =>
    cases b with
    | nil => rfl
    | cons y ys =>
      exact absurd (congrArg String.data h).symm (hne y ys (hb y (List.mem_cons_self _ _)))
  | cons x xs =>
    cases b with
    | nil =>
      exact absurd (congrArg String.data h) (hne x xs (ha x (List.mem_cons_self _ _)))
    | cons y ys =>
      have hd := congrArg String.data h
      rw [stringsJoin_comma_data, stringsJoin_comma_data] at hd
      obtain ⟨hxy, hrest⟩ := commaFree_split x.data y.data _ _
        (ha x (List.mem_cons_self _ _)).2 (hb y (List.mem_cons_self _ _)).2
        (commaTail_shape xs) (commaTail_shape ys) hd
      rw [String.ext hxy, commaTail_injective xs ys
        (fun t ht => (ha t (List.mem_cons_of_mem _ ht)).2)
        (fun t ht => (hb t (List.mem_cons_of_mem _ ht)).2) hrest]

theorem sigText_cancel (x y : String) (h : "log(" ++ x ++ ")" = "log(" ++ y ++ ")") :
    x = y := by
  have hd := congrArg String.data h
  simp only [String.data_append] at hd
  exact String.ext (List.append_cancel_left (List.append_cancel_right hd))

set_option maxRecDepth 100000 in
theorem genSignatures_wellFormed :
    ∀ s ∈ genSignatures, ∀ t ∈ s, t ≠ "" ∧ comma ∉ t.data := by
  rw [genSignatures_blocks]
  decide

theorem utf8EncodeChar_ascii (c : Char) (h : c.toNat < 128) :
    String.utf8EncodeChar c = [UInt8.ofNat c.toNat] := by
  unfold String.utf8EncodeChar
  have hle : c.val ≤ 0x7f := by
    have hn : c.val.toNat ≤ 127 := by
      have := h
      simp only [Char.toNat] at this
      omega
    exact hn
  simp only [hle, if_true]
  rfl

theorem flatMap_utf8_ascii (cs : List Char) (h : ∀ c ∈ cs, c.toNat < 128) :
    cs.flatMap String.utf8EncodeChar = cs.map fun c => UInt8.ofNat c.toNat := by
  induction cs with
  | nil => rfl
  | cons c cs ih =>
    rw [List.flatMap_cons, utf8EncodeChar_ascii c (h c (List.mem_cons_self _ _)),
      ih fun d hd => h d (List.mem_cons_of_mem _ hd)]
    rfl

/-- The UTF-8 bytes of an ASCII text are its code points. -/
theorem bytesOf_ascii (s : String) (h : ∀ c ∈ s.data, c.toNat < 128) :
    bytesOf s = specAsciiBytes s :=
  flatMap_utf8_ascii s.data h

set_option maxRecDepth 100000 in
theorem genSignatures_sig_ascii :
    ∀ s ∈ genSignatures, ∀ c ∈ ("log(" ++ String.intercalate "," s ++ ")").data,
      c.toNat < 128 := by
  rw [genSignatures_blocks]
  decide

/-! ## Claims -/

set_option maxRecDepth 100000 in
/-- C1: `genSignatures` returns the empty signature, then the 38 one-element
signatures in vocabulary order, then the Cartesian 2nd, 3rd and 4th powers of
the vocabulary string, uint, address, bool, written out here; every power holds
exactly the tuples of its length over these four names and is strictly
increasing in the lexicographic order induced by
string < uint < address < bool. -/
theorem C1_genSignatures_eq :
    logArgs = ["string", "uint", "address", "bool"] ∧
    genSignatures = [[]] ++ specSingles ++ specPower ["string", "uint", "address", "bool"] 2
      ++ specPower ["string", "uint", "address", "bool"] 3
      ++ specPower ["string", "uint", "address", "bool"] 4 ∧
    specSingles = [["string"], ["uint"], ["int"], ["bool"], ["address"], ["bytes"],
      ["bytes1"], ["bytes2"], ["bytes3"], ["bytes4"], ["bytes5"], ["bytes6"], ["bytes7"],
      ["bytes8"], ["bytes9"], ["bytes10"], ["bytes11"], ["bytes12"], ["bytes13"], ["bytes14"],
      ["bytes15"], ["bytes16"], ["bytes17"], ["bytes18"], ["bytes19"], ["bytes20"], ["bytes21"],
      ["bytes22"], ["bytes23"], ["bytes24"], ["bytes25"], ["bytes26"], ["bytes27"], ["bytes28"],
      ["bytes29"], ["bytes30"], ["bytes31"], ["bytes32"]] ∧
    specSingles.length = 38 ∧
    specPower ["string", "uint", "address", "bool"] 2 =
      [["string", "string"], ["string", "uint"], ["string", "address"], ["string", "bool"],
       ["uint", "string"], ["uint", "uint"], ["uint", "address"], ["uint", "bool"],
       ["address", "string"], ["address", "uint"], ["address", "address"], ["address", "bool"],
       ["bool", "string"], ["bool", "uint"], ["bool", "address"], ["bool", "bool"]] ∧
    (specPower ["string", "uint", "address", "bool"] 3).take 6 =
      [["string", "string", "string"], ["string", "string", "uint"],
       ["string", "string", "address"], ["string", "string", "bool"],
       ["string", "uint", "string"], ["string", "uint", "uint"]] ∧
    (specPower ["string", "uint", "address", "bool"] 3).getLast? = some ["bool", "bool", "bool"] ∧
    (specPower ["string", "uint", "address", "bool"] 3).length = 64 ∧
    (specPower ["string", "uint", "address", "bool"] 4).take 6 =
      [["string", "string", "string", "string"], ["string", "string", "string", "uint"],
       ["string", "string", "string", "address"], ["string", "string", "string", "bool"],
       ["string", "string", "uint", "string"], ["string", "string", "uint", "uint"]] ∧
    (specPower ["string", "uint", "address", "bool"] 4).getLast? = some ["bool", "bool", "bool", "bool"] ∧
    (specPower ["string", "uint", "address", "bool"] 4).length = 256 ∧
    genSignatures[39]? = some ["string", "string"] ∧
    genSignatures[40]? = some ["string", "uint"] ∧
    genSignatures[54]? = some ["bool", "bool"] ∧
    genSignatures[55]? = some ["string", "string", "string"] ∧
    genSignatures[56]? = some ["string", "string", "uint"] ∧
    genSignatures[59]? = some ["string", "uint", "string"] ∧
    genSignatures[118]? = some ["bool", "bool", "bool"] ∧
    genSignatures[119]? = some ["string", "string", "string", "string"] ∧
    genSignatures[120]? = some ["string", "string", "string", "uint"] ∧
    genSignatures[123]? = some ["string", "string", "uint", "string"] ∧
    genSignatures[374]? = some ["bool", "bool", "bool", "bool"] ∧
    genSignatures[375]? = none ∧
    (∀ k t, t ∈ specPower ["string", "uint", "address", "bool"] k ↔
      t.length = k ∧ ∀ x ∈ t, x = "string" ∨ x = "uint" ∨ x = "address" ∨ x = "bool") ∧
    (specRank "string" = 0 ∧ specRank "uint" = 1 ∧ specRank "address" = 2 ∧
      specRank "bool" = 3) ∧
    (∀ k, (specPower ["string", "uint", "address", "bool"] k).Pairwise
      (fun a b => List.Lex (· < ·) (a.map specRank) (b.map specRank))) := by
  have hblocks : genSignatures = [[]] ++ specSingles ++ specPower ["string", "uint", "address", "bool"] 2
      ++ specPower ["string", "uint", "address", "bool"] 3
      ++ specPower ["string", "uint", "address", "bool"] 4 := by
    simpa using genSignatures_blocks
  have hmem : ∀ k t, t ∈ specPower ["string", "uint", "address", "bool"] k ↔
      t.length = k ∧ ∀ x ∈ t, x = "string" ∨ x = "uint" ∨ x = "address" ∨ x = "bool" := by
    intro k t
    rw [mem_specPower]
    simp
  refine ⟨rfl, hblocks, by decide, by decide, by decide, by decide, by decide, by decide,
    by decide, by decide, by decide, ?_, ?_, ?_, ?_, ?_, ?_, ?_, ?_, ?_, ?_, ?_, ?_, hmem,
    by decide, specPower_lex ["string", "uint", "address", "bool"] specRank (by decide)⟩ <;>
  · rw [hblocks]
    decide

/-- C2: `genSignatures` has exactly 375 elements: 1 of length 0, 38 of length 1,
16 of length 2, 64 of length 3 and 256 of length 4. -/
theorem C2_genSignatures_count :
    genSignatures.length = 375 ∧
    genSignatures.countP (fun s => s.length == 0) = 1 ∧
    genSignatures.countP (fun s => s.length == 1) = 38 ∧
    genSignatures.countP (fun s => s.length == 2) = 16 ∧
    genSignatures.countP (fun s => s.length == 3) = 64 ∧
    genSignatures.countP (fun s => s.length == 4) = 256 :=
  genSignatures_length_counts

/-- C3: every entry of the model has `Sig` equal to "log(" followed by its `Args`
joined with "," followed by ")", a text of ASCII characters, and `Sel` equal to
the first four bytes of the hash of the bytes of `Sig`, one byte per character;
the entry of the empty signature exists, with `Sig` equal to "log()" and `Sel`
the first four bytes of the hash of the bytes 108, 111, 103, 40, 41. -/
theorem C3_selector_correct (Keccak256 : List UInt8 → Digest) (Addr : Address) :
    (∀ e ∈ (buildModel Keccak256 Addr).Args,
      e.Sig = "log(" ++ String.intercalate "," e.Args ++ ")" ∧
      (∀ c ∈ e.Sig.data, c.toNat < 128) ∧
      e.Sel.toList
        = (Keccak256 (e.Sig.data.map fun c => UInt8.ofNat c.toNat)).val.take 4 ∧
      e.Sel.toList.length = 4) ∧
    (∃ e ∈ (buildModel Keccak256 Addr).Args,
      e.Args = [] ∧ e.Sig = "log()" ∧
      e.Sel.toList = (Keccak256 [108, 111, 103, 40, 41]).val.take 4) ∧
    (∀ e ∈ (buildModel Keccak256 Addr).Args, e.Args = [] →
      e.Sig = "log()" ∧ e.Sel.toList = (Keccak256 [108, 111, 103, 40, 41]).val.take 4) ∧
    (∃ e ∈ (buildModel Keccak256 Addr).Args,
      e.Args = ["string", "uint"] ∧ e.Sig = "log(string,uint)" ∧
      e.Sel.toList = (Keccak256 [108, 111, 103, 40, 115, 116, 114, 105, 110, 103, 44,
        117, 105, 110, 116, 41]).val.take 4) := by
  have hentry : ∀ s ∈ genSignatures,
      (specEntry Keccak256 s).Sel.toList
        = (Keccak256 (specAsciiBytes ("log(" ++ String.intercalate "," s ++ ")"))).val.take 4 := by
    intro s hs
    rw [← bytesOf_ascii _ (genSignatures_sig_ascii s hs)]
    exact first4_toList _
  have hnil : [] ∈ genSignatures := by
    rw [genSignatures_blocks]
    simp
  have hpair : ["string", "uint"] ∈ genSignatures :=
    mem_genSignatures_power 2 (Or.inl rfl) _
      ((mem_specPower logArgs 2 _).mpr ⟨rfl, by decide⟩)
  have hb0 : specAsciiBytes ("log(" ++ String.intercalate "," [] ++ ")")
      = [108, 111, 103, 40, 41] := by decide
  have hb2 : specAsciiBytes ("log(" ++ String.intercalate "," ["string", "uint"] ++ ")")
      = [108, 111, 103, 40, 115, 116, 114, 105, 110, 103, 44, 117, 105, 110, 116, 41] := by
    decide
  rw [buildModel_args]
  refine ⟨?_, ?_, ?_, ?_⟩
  · intro e he
    obtain ⟨s, hs, rfl⟩ := List.mem_map.mp he
    exact ⟨rfl, genSignatures_sig_ascii s hs, hentry s hs, rfl⟩
  · refine ⟨specEntry Keccak256 [], List.mem_map.mpr ⟨[], hnil, rfl⟩, rfl, rfl, ?_⟩
    rw [hentry [] hnil, hb0]
  · intro e he hargs
    obtain ⟨s, hs, rfl⟩ := List.mem_map.mp he
    have hs0 : s = [] := hargs
    subst hs0
    refine ⟨rfl, ?_⟩
    rw [hentry [] hnil, hb0]
  · refine ⟨specEntry Keccak256 ["string", "uint"],
      List.mem_map.mpr ⟨_, hpair, rfl⟩, rfl,
      (by decide : "log(" ++ String.intercalate "," ["string", "uint"] ++ ")"
        = "log(string,uint)"), ?_⟩
    rw [hentry _ hpair, hb2]

theorem C3_selector_correct_witness :
    ({ Sig := "log(string,uint)", Sel := (31, 68, 105, 142), Args := ["string", "uint"] }
        : Args) ∈ (buildModel mixHash sampleAddr).Args ∧
      "log(string,uint)" = "log(" ++ String.intercalate "," ["string", "uint"] ++ ")" ∧
      Sel4.toList (31, 68, 105, 142)
        = (mixHash ("log(string,uint)".data.map fun c => UInt8.ofNat c.toNat)).val.take 4 :=
  have hmem :
      ({ Sig := "log(string,uint)", Sel := (31, 68, 105, 142), Args := ["string", "uint"] }
        : Args) ∈ (buildModel mixHash sampleAddr).Args := by
    rw [buildModel_args]
    exact List.mem_map.mpr ⟨["string", "uint"],
      mem_genSignatures_power 2 (Or.inl rfl) _
        ((mem_specPower logArgs 2 _).mpr ⟨rfl, by decide⟩), by decide⟩
  have h := (C3_selector_correct mixHash sampleAddr).1 _ hmem
  ⟨hmem, h.1, h.2.2.1⟩

/-- C4: `IsLog` is true exactly when there are no arguments, or at least two, or
exactly one argument that is one of string, uint, address, bool. -/
theorem C4_isLog_iff (a : Args) :
    a.IsLog = true ↔
      a.Args.length = 0 ∨ a.Args.length ≥ 2 ∨
        (a.Args.length = 1 ∧
          ∃ t, a.Args[0]? = some t ∧
            (t = "string" ∨ t = "uint" ∨ t = "address" ∨ t = "bool")) := by
  obtain ⟨sig, sel, xs⟩ := a
  match xs with
  | [] => simp [Args.IsLog]
  | [t] => simp [Args.IsLog, KeySet.has, logArgsSet_eq]
  | _ :: _ :: _ => simp [Args.IsLog]

/-- C5: `IsLogType` is true exactly when there is one argument, and it is true
for exactly 38 entries of the model. -/
theorem C5_isLogType (Keccak256 : List UInt8 → Digest) (Addr : Address) :
    (∀ a : Args, a.IsLogType = true ↔ a.Args.length = 1) ∧
    (buildModel Keccak256 Addr).Args.length = 375 ∧
    (buildModel Keccak256 Addr).Args.countP Args.IsLogType = 38 := by
  refine ⟨fun a => by simp [Args.IsLogType], ?_, ?_⟩
  · rw [buildModel_args, List.length_map]
    exact genSignatures_length_counts.1
  · rw [buildModel_args, List.countP_map]
    exact genSignatures_length_counts.2.2.1

/-- C9: the model holds the address constant and one entry per enumerated
signature, 375 in all, the entry at every index carrying the signature
enumerated at that index. -/
theorem C9_model_entries (Keccak256 : List UInt8 → Digest) (Addr : Address) :
    (buildModel Keccak256 Addr).Addr = Addr ∧
    (buildModel Keccak256 Addr).Args.length = genSignatures.length ∧
    (buildModel Keccak256 Addr).Args.length = 375 ∧
    (buildModel Keccak256 Addr).Args.map (fun e => e.Args) = genSignatures ∧
    (∀ i : Nat, ((buildModel Keccak256 Addr).Args[i]?).map (fun e => e.Args)
      = genSignatures[i]?) := by
  have hmap : (buildModel Keccak256 Addr).Args.map (fun e => e.Args) = genSignatures := by
    rw [buildModel_args, List.map_map]
    exact List.map_id _
  refine ⟨rfl, ?_, ?_, hmap, ?_⟩
  · rw [buildModel_args, List.length_map]
  · rw [buildModel_args, List.length_map]
    exact genSignatures_length_counts.1
  · intro i
    rw [← List.getElem?_map, hmap]

/-- C6: among the 375 entries of the model `IsLog` is true for exactly 341 (the
337 of length 0 or at least 2 and the four one-element signatures over string,
uint, address, bool) and false for exactly 34, which are the one-element
signatures of int, bytes and bytes1 to bytes32. -/
theorem C6_isLog_counts (Keccak256 : List UInt8 → Digest) (Addr : Address) :
    (buildModel Keccak256 Addr).Args.length = 375 ∧
    (buildModel Keccak256 Addr).Args.countP Args.IsLog = 341 ∧
    (buildModel Keccak256 Addr).Args.countP (fun e => !e.IsLog) = 34 ∧
    ((buildModel Keccak256 Addr).Args.filter (fun e => !e.IsLog)).map (fun e => e.Args)
      = specNonLogSingles ∧
    specNonLogSingles.length = 34 ∧
    (buildModel Keccak256 Addr).Args.countP
      (fun e => e.Args.length == 0 || decide (e.Args.length ≥ 2)) = 337 ∧
    ((buildModel Keccak256 Addr).Args.filter
        (fun e => e.IsLog && e.Args.length == 1)).map (fun e => e.Args)
      = [["string"], ["uint"], ["bool"], ["address"]] := by
  obtain ⟨h1, h2, h3, h4, h5⟩ := genSignatures_isLog_facts
  refine ⟨?_, ?_, ?_, ?_, by decide, ?_, ?_⟩
  · rw [buildModel_args, List.length_map]
    exact genSignatures_length_counts.1
  · rw [countP_entries Keccak256 Addr _ _ (isLog_specEntry Keccak256)]
    exact h1
  · rw [countP_entries Keccak256 Addr (fun e => !e.IsLog) _
      (fun s => congrArg not (isLog_specEntry Keccak256 s))]
    exact h2
  · rw [filter_entries Keccak256 Addr (fun e => !e.IsLog) _
      (fun s => congrArg not (isLog_specEntry Keccak256 s))]
    exact h3
  · rw [countP_entries Keccak256 Addr _ (fun s => s.length == 0 || decide (s.length ≥ 2))
      (fun s => rfl)]
    exact h4
  · rw [filter_entries Keccak256 Addr (fun e => e.IsLog && e.Args.length == 1)
      (fun s => Args.IsLog { Args.zero with Args := s } && s.length == 1)
      (fun s => congrArg (fun b => b && s.length == 1) (isLog_specEntry Keccak256 s))]
    exact h5

set_option maxRecDepth 100000 in
/-- C7: indices 0 to 38 hold the empty and the single-type signatures, indices
39 to 54 hold the 16 ordered pairs over `logArgs`, each once, the pair
`(logArgs[i], logArgs[j])` at index `39 + 4*i + j`, index 55 holds
`[string, string, string]`, no signature of length 3 or 4 occurs before index
55 and none of length 2 at or after it. -/
theorem C7_pair_block_position :
    genSignatures.take 39 = [] :: specSingles ∧
    (∀ s ∈ genSignatures.take 39, s.length ≤ 1) ∧
    (∀ i j : Fin 4,
      genSignatures[39 + 4 * i.val + j.val]? = some [logArgs.get i, logArgs.get j]) ∧
    (genSignatures.drop 39).take 16 = specPower logArgs 2 ∧
    ((genSignatures.drop 39).take 16).Nodup ∧
    genSignatures[55]? = some ["string", "string", "string"] ∧
    (∀ s ∈ genSignatures.take 55, s.length ≠ 3 ∧ s.length ≠ 4) ∧
    (∀ s ∈ genSignatures.drop 55, s.length ≠ 2) := by
  rw [genSignatures_blocks]
  decide

set_option maxRecDepth 100000 in
/-- C8: the length-2 signatures of `genSignatures`, in order, begin with
`[string,string]`, `[string,uint]`, `[string,address]` and end with `[bool,bool]`. -/
theorem C8_pair_block_ends :
    (genSignatures.filter (fun s => s.length == 2)).take 3 =
      [["string", "string"], ["string", "uint"], ["string", "address"]] ∧
    (genSignatures.filter (fun s => s.length == 2)).getLast? = some ["bool", "bool"] ∧
    (genSignatures.filter (fun s => s.length == 2)).length = 16 := by
  rw [genSignatures_blocks]
  decide

/-- C10: `SignatureArgs` is the pieces joined with ", ", the piece of argument
`i` being the type followed by " memory p" and `i` when the type is exactly
`string` or `bytes`, and the type followed by " p" and `i` otherwise; it is the
empty string for the empty tuple. -/
theorem C10_signatureArgs (a : Args) :
    a.SignatureArgs = String.intercalate ", "
      (List.ofFn fun i : Fin a.Args.length =>
        if a.Args.get i = "string" ∨ a.Args.get i = "bytes" then
          a.Args.get i ++ " memory p" ++ toString i.val
        else
          a.Args.get i ++ " p" ++ toString i.val) ∧
    (a.Args = [] → a.SignatureArgs = "") ∧
    Args.SignatureArgs { Args.zero with
        Args := ["string", "bytes", "bytes1", "bytes32", "uint", "int", "bool", "address"] }
      = "string memory p0, bytes memory p1, bytes1 p2, bytes32 p3, uint p4, int p5, bool p6, address p7" := by
  have hloop : a.SignatureArgs = String.intercalate ", "
      (List.ofFn fun i : Fin a.Args.length =>
        if a.Args.get i = "string" ∨ a.Args.get i = "bytes" then
          a.Args.get i ++ " memory p" ++ toString i.val
        else
          a.Args.get i ++ " p" ++ toString i.val) := by
    unfold Args.SignatureArgs
    simp only
    rw [foldl_set_enum _
      (fun i arg => if arg = "string" ∨ arg = "bytes" then arg ++ " memory p" ++ toString i
        else arg ++ " p" ++ toString i)
      (fun acc ia => by by_cases h : ia.2 = "string" ∨ ia.2 = "bytes" <;> simp [h]),
      stringsJoin_eq_intercalate]
    exact congrArg (String.intercalate ", ") (map_enum_eq_ofFn
      (fun i arg => if arg = "string" ∨ arg = "bytes" then arg ++ " memory p" ++ toString i
        else arg ++ " p" ++ toString i) a.Args)
  refine ⟨hloop, ?_, by decide⟩
  intro h
  obtain ⟨sig, sel, xs⟩ := a
  have hxs : xs = [] := h
  subst hxs
  rfl

/-- C11: `Params` is the names `p0`, `p1`, ... up to `p(n-1)` joined with ", ",
`n` being the number of arguments; it does not depend on the argument types, is
the empty string for no argument and has exactly `n` names. -/
theorem C11_params (a : Args) :
    a.Params = String.intercalate ", "
      ((List.range a.Args.length).map fun i => "p" ++ toString i) ∧
    ((List.range a.Args.length).map fun i => "p" ++ toString i).length = a.Args.length ∧
    (∀ b : Args, b.Args.length = a.Args.length → b.Params = a.Params) ∧
    (a.Args = [] → a.Params = "") ∧
    Args.Params { Args.zero with Args := ["string", "bytes32", "uint", "bool"] }
      = "p0, p1, p2, p3" := by
  have hloop : ∀ x : Args, x.Params = String.intercalate ", "
      (x.Args.enum.map fun ia => "p" ++ toString ia.1) := by
    intro x
    unfold Args.Params
    simp only
    rw [foldl_set_enum _ (fun i _ => "p" ++ toString i) (fun acc ia => rfl),
      stringsJoin_eq_intercalate]
  have hrange : ∀ x : Args, (x.Args.enum.map fun ia => "p" ++ toString ia.1)
      = (List.range x.Args.length).map fun i => "p" ++ toString i := by
    intro x
    apply List.ext_getElem
    · simp
    · intro n h1 h2
      simp
  refine ⟨by rw [hloop, hrange], by simp, ?_, ?_, by decide⟩
  · intro b hb
    rw [hloop, hloop, hrange, hrange, hb]
  · intro h
    rw [hloop, h]
    rfl

/-- C12: for argument types from the vocabulary `ArgTypes` is one identifier per
argument, in order, joined with ", ", each identifier being "arg" followed by
the type name with its first letter in upper case. -/
theorem C12_argTypes (u : Unicode) (a : Args) (hv : ∀ t ∈ a.Args, t ∈ specSingleTypes) :
    a.ArgTypes u
      = String.intercalate ", " (a.Args.map fun t => "arg" ++ specCapitalize t) ∧
    (a.Args.map fun t => "arg" ++ specCapitalize t).length = a.Args.length ∧
    specSingleTypes.map specCapitalize
      = ["String", "Uint", "Int", "Bool", "Address", "Bytes", "Bytes1", "Bytes2", "Bytes3",
        "Bytes4", "Bytes5", "Bytes6", "Bytes7", "Bytes8", "Bytes9", "Bytes10", "Bytes11",
        "Bytes12", "Bytes13", "Bytes14", "Bytes15", "Bytes16", "Bytes17", "Bytes18",
        "Bytes19", "Bytes20", "Bytes21", "Bytes22", "Bytes23", "Bytes24", "Bytes25",
        "Bytes26", "Bytes27", "Bytes28", "Bytes29", "Bytes30", "Bytes31", "Bytes32"] := by
  refine ⟨?_, by simp, by decide⟩
  unfold Args.ArgTypes
  simp only
  rw [foldl_set_enum _ (fun _ arg => "arg" ++ stringsTitle u arg) (fun acc ia => rfl),
    stringsJoin_eq_intercalate]
  have hsnd := map_enumFrom_snd (fun arg => "arg" ++ stringsTitle u arg) a.Args 0
  rw [List.enum, hsnd]
  congr 1
  apply List.map_congr_left
  intro t ht
  rw [stringsTitle_alnum u t (specSingleTypes_alnum t (hv t ht))]

theorem C12_argTypes_witness :
    (∀ t ∈ ({ Args.zero with Args := ["string", "uint", "bytes32"] } : Args).Args,
        t ∈ specSingleTypes) ∧
      Args.ArgTypes sampleUnicode { Args.zero with Args := ["string", "uint", "bytes32"] }
        = "argString, argUint, argBytes32" :=
  ⟨by decide,
    (C12_argTypes sampleUnicode { Args.zero with Args := ["string", "uint", "bytes32"] }
      (by decide)).1.trans (by decide)⟩

/-- C13: among the 375 entries of the model `IsLog` and `IsLogType` are both true
for exactly four, the one-element signatures of string, uint, address and bool. -/
theorem C13_both_flags (Keccak256 : List UInt8 → Digest) (Addr : Address) :
    (buildModel Keccak256 Addr).Args.length = 375 ∧
    (buildModel Keccak256 Addr).Args.countP (fun e => e.IsLog && e.IsLogType) = 4 ∧
    ((buildModel Keccak256 Addr).Args.filter
        (fun e => e.IsLog && e.IsLogType)).map (fun e => e.Args)
      = [["string"], ["uint"], ["bool"], ["address"]] ∧
    (∀ e : Args, (e.IsLog && e.IsLogType) = true ↔
      e.Args ∈ [["string"], ["uint"], ["address"], ["bool"]]) := by
  have hq : ∀ s, (fun e : Args => e.IsLog && e.IsLogType) (specEntry Keccak256 s)
      = (Args.IsLog { Args.zero with Args := s } && s.length == 1) :=
    fun s => congrArg (fun b => b && s.length == 1) (isLog_specEntry Keccak256 s)
  have h5 := genSignatures_isLog_facts.2.2.2.2
  refine ⟨?_, ?_, ?_, ?_⟩
  · rw [buildModel_args, List.length_map]
    exact genSignatures_length_counts.1
  · rw [countP_entries Keccak256 Addr _ _ hq, List.countP_eq_length_filter, h5]
    rfl
  · rw [filter_entries Keccak256 Addr _ _ hq]
    exact h5
  · intro e
    obtain ⟨sig, sel, xs⟩ := e
    match xs with
    | [] => simp [Args.IsLog, Args.IsLogType]
    | [t] => simp [Args.IsLog, Args.IsLogType, KeySet.has, logArgsSet_eq]
    | _ :: _ :: _ => simp [Args.IsLog, Args.IsLogType]

/-- C17: with at least one argument, and so whenever `IsLogType` holds,
`LogTypeSignature` does not fail on `a.Args[0]`; for a first type from the
vocabulary it is "log", the first type with its first letter in upper case,
"(", `SignatureArgs` and ")"; with no argument the index is out of range and
the call fails. -/
theorem C17_logTypeSignature (u : Unicode) (a : Args) :
    (a.Args.length ≥ 1 → (a.LogTypeSignature u).isSome = true) ∧
    (a.IsLogType = true → (a.LogTypeSignature u).isSome = true) ∧
    (∀ t rest, a.Args = t :: rest → t ∈ specSingleTypes →
      a.LogTypeSignature u
        = some ("log" ++ specCapitalize t ++ "(" ++ a.SignatureArgs ++ ")")) ∧
    (a.Args.length = 0 → a.LogTypeSignature u = none) ∧
    Args.LogTypeSignature u { Args.zero with Args := ["string"] }
      = some "logString(string memory p0)" ∧
    Args.LogTypeSignature u { Args.zero with Args := ["bytes32"] }
      = some "logBytes32(bytes32 p0)" := by
  have hgen : ∀ (x : Args) t rest, x.Args = t :: rest → t ∈ specSingleTypes →
      x.LogTypeSignature u
        = some ("log" ++ specCapitalize t ++ "(" ++ x.SignatureArgs ++ ")") := by
    intro x t rest hx ht
    unfold Args.LogTypeSignature
    rw [hx]
    simp only [List.getElem?_cons_zero]
    rw [stringsTitle_alnum u t (specSingleTypes_alnum t ht)]
  have hsome : a.Args.length ≥ 1 → (a.LogTypeSignature u).isSome = true := by
    intro h
    unfold Args.LogTypeSignature
    match hxs : a.Args with
    | [] => simp [hxs] at h
    | t :: rest => simp
  refine ⟨hsome, ?_, hgen a, ?_, ?_, ?_⟩
  · intro h
    apply hsome
    simp only [Args.IsLogType, beq_iff_eq] at h
    omega
  · intro h
    unfold Args.LogTypeSignature
    rw [List.length_eq_zero.mp h]
    rfl
  · rw [hgen _ "string" [] rfl (by decide)]
    decide
  · rw [hgen _ "bytes32" [] rfl (by decide)]
    decide

/-- C20: for every argument tuple at least one of `IsLog` and `IsLogType` is
true, so each of the 375 entries of the model is selected by at least one of
the two naming branches. -/
theorem C20_some_flag (Keccak256 : List UInt8 → Digest) (Addr : Address) :
    (∀ a : Args, a.IsLog = true ∨ a.IsLogType = true) ∧
    (buildModel Keccak256 Addr).Args.length = 375 ∧
    (∀ e ∈ (buildModel Keccak256 Addr).Args, e.IsLog = true ∨ e.IsLogType = true) ∧
    (buildModel Keccak256 Addr).Args.countP (fun e => e.IsLog || e.IsLogType) = 375 := by
  have hall : ∀ a : Args, a.IsLog = true ∨ a.IsLogType = true := by
    intro a
    obtain ⟨sig, sel, xs⟩ := a
    match xs with
    | [] => simp [Args.IsLog]
    | [t] => simp [Args.IsLogType]
    | _ :: _ :: _ => simp [Args.IsLog]
  have hlen : (buildModel Keccak256 Addr).Args.length = 375 := by
    rw [buildModel_args, List.length_map]
    exact genSignatures_length_counts.1
  refine ⟨hall, hlen, fun e _ => hall e, ?_⟩
  rw [List.countP_eq_length.mpr, hlen]
  intro e _
  simpa using hall e

/-- C16: when `gen` succeeds, the file of the given name holds the marker line,
a newline and then exactly what the template named after the file with ".tmpl"
rendered for the model; the marker is written before the rendering and nothing
else is written, to this file or any other. -/
theorem C16_gen_content (env : Env) (name : String) (tmpl : Template) (model : Model)
    (w : World) (hok : (gen env name tmpl model w).2 = none) :
    (tmpl.ExecuteTemplate (name ++ ".tmpl") model).2 = none ∧
    (gen env name tmpl model w).1.files name
      = some ("// Code generated by go generate; DO NOT EDIT." ++ "\n"
          ++ (tmpl.ExecuteTemplate (name ++ ".tmpl") model).1) ∧
    (gen env name tmpl model w).1.trace
      = w.trace ++ [Event.create name,
          Event.fprintln name "// Code generated by go generate; DO NOT EDIT.",
          Event.executeTemplate name (name ++ ".tmpl"), Event.close name] ∧
    (∀ other, other ≠ name → (gen env name tmpl model w).1.files other = w.files other) := by
  cases hc : env.Create w.files name with
  | some err =>
    rw [gen_create_error env name tmpl model w err hc] at hok
    simp at hok
  | none =>
    rw [gen_create_ok env name tmpl model w hc] at hok ⊢
    refine ⟨hok, Files.write_same _ _ _, rfl, fun other h => Files.write_other _ _ _ _ h⟩

theorem C16_gen_content_witness :
    (gen sampleEnv "args.go" sampleTemplate (buildModel sampleHash sampleAddr) emptyWorld).2
        = none ∧
      (gen sampleEnv "args.go" sampleTemplate (buildModel sampleHash sampleAddr)
          emptyWorld).1.files "args.go"
        = some "// Code generated by go generate; DO NOT EDIT.\nrendered args.go.tmpl" :=
  ⟨rfl, (C16_gen_content sampleEnv "args.go" sampleTemplate
      (buildModel sampleHash sampleAddr) emptyWorld rfl).2.1.trans (by decide)⟩

/-- C14, as amended: `run` either returns no error, and then both output files
hold their marker line and rendering, or returns an error; when the error is
the parse failure or the failure to create `args.go`, no file has been created,
truncated or written to; when the error is the failure of the `args.go`
template or the failure to create `console.sol`, `console.sol` has not been
created, truncated or written to. Once `args.go` has been created it holds its
marker line and what the engine wrote, also when a later step fails, and no
file other than the two output files is ever touched. -/
theorem C14_run_files (env : Env) (w : World) :
    ((run env w).2 = none →
      ∃ tmpl, env.ParseFS = .ok tmpl ∧
        (run env w).1.files "args.go"
          = some (specContent tmpl (buildModel env.Keccak256 env.Addr) "args.go") ∧
        (run env w).1.files "console.sol"
          = some (specContent tmpl (buildModel env.Keccak256 env.Addr) "console.sol")) ∧
    (∀ err, env.ParseFS = .error err →
      (run env w).2 = some err ∧ (run env w).1.files = w.files) ∧
    (∀ tmpl err, env.ParseFS = .ok tmpl → env.Create w.files "args.go" = some err →
      (run env w).2 = some err ∧ (run env w).1.files = w.files) ∧
    (∀ tmpl, env.ParseFS = .ok tmpl → env.Create w.files "args.go" = none →
      (run env w).1.files "args.go"
        = some (specContent tmpl (buildModel env.Keccak256 env.Addr) "args.go")) ∧
    (∀ tmpl err, env.ParseFS = .ok tmpl → env.Create w.files "args.go" = none →
      (tmpl.ExecuteTemplate ("args.go" ++ ".tmpl") (buildModel env.Keccak256 env.Addr)).2
        = some err →
      (run env w).2 = some err ∧
      (run env w).1.files "console.sol" = w.files "console.sol" ∧
      (∀ ev ∈ (run env w).1.trace, ev ∈ w.trace ∨ ev = Event.parseFS
        ∨ ev ∈ specGenTrace "args.go")) ∧
    (∀ tmpl err, env.ParseFS = .ok tmpl → env.Create w.files "args.go" = none →
      (tmpl.ExecuteTemplate ("args.go" ++ ".tmpl") (buildModel env.Keccak256 env.Addr)).2
        = none →
      env.Create (w.files.write "args.go"
        (specContent tmpl (buildModel env.Keccak256 env.Addr) "args.go")) "console.sol"
        = some err →
      (run env w).2 = some err ∧
      (run env w).1.files "console.sol" = w.files "console.sol") ∧
    (∀ n, n ≠ "args.go" → n ≠ "console.sol" → (run env w).1.files n = w.files n) := by
  have hne : "console.sol" ≠ "args.go" := by decide
  have hbase :
        ((run env w).2 = none →
          ∃ tmpl, env.ParseFS = .ok tmpl ∧
            (run env w).1.files "args.go"
              = some (specContent tmpl (buildModel env.Keccak256 env.Addr) "args.go") ∧
            (run env w).1.files "console.sol"
              = some (specContent tmpl (buildModel env.Keccak256 env.Addr) "console.sol")) ∧
        (∀ err, env.ParseFS = .error err →
          (run env w).2 = some err ∧ (run env w).1.files = w.files) ∧
        (∀ tmpl err, env.ParseFS = .ok tmpl → env.Create w.files "args.go" = some err →
          (run env w).2 = some err ∧ (run env w).1.files = w.files) ∧
        (∀ tmpl, env.ParseFS = .ok tmpl → env.Create w.files "args.go" = none →
          (run env w).1.files "args.go"
            = some (specContent tmpl (buildModel env.Keccak256 env.Addr) "args.go")) ∧
        (∀ n, n ≠ "args.go" → n ≠ "console.sol" → (run env w).1.files n = w.files n) := by
      have hne : "args.go" ≠ "console.sol" := by decide
      cases hp : env.ParseFS with
      | error err =>
        rw [run_parse_error env w err hp]
        simp
      | ok tmpl =>
        cases hc : env.Create w.files "args.go" with
        | some err =>
          rw [run_args_create_error env w tmpl err hp hc]
          simp
        | none =>
          cases hx : (tmpl.ExecuteTemplate ("args.go" ++ ".tmpl")
              (buildModel env.Keccak256 env.Addr)).2 with
          | some err =>
            rw [run_args_execute_error env w tmpl err hp hc hx]
            simp [Files.write_same]
            intro n h1 _
            exact Files.write_other _ _ _ _ h1
          | none =>
            cases hc2 : env.Create (w.files.write "args.go"
                (specContent tmpl (buildModel env.Keccak256 env.Addr) "args.go")) "console.sol" with
            | some err =>
              rw [run_console_create_error env w tmpl err hp hc hx hc2]
              simp [Files.write_same]
              intro n h1 _
              exact Files.write_other _ _ _ _ h1
            | none =>
              rw [run_console_created env w tmpl hp hc hx hc2]
              simp [Files.write_same, Files.write_other _ _ _ _ hne]
              intro n h1 h2
              rw [Files.write_other _ _ _ _ h2, Files.write_other _ _ _ _ h1]
  obtain ⟨h1, h2, h3, h4, h5⟩ := hbase
  refine ⟨h1, h2, h3, h4, ?_, ?_, h5⟩
  · intro tmpl err hp hc hx
    rw [run_args_execute_error env w tmpl err hp hc hx]
    refine ⟨rfl, Files.write_other w.files "args.go"
      (specContent tmpl (buildModel env.Keccak256 env.Addr) "args.go") "console.sol" hne, ?_⟩
    intro ev hev
    simp only [List.mem_append, List.mem_singleton] at hev
    rcases hev with (h | h) | h
    · exact Or.inl h
    · exact Or.inr (Or.inl h)
    · exact Or.inr (Or.inr h)
  · intro tmpl err hp hc hx hc2
    rw [run_console_create_error env w tmpl err hp hc hx hc2]
    exact ⟨rfl, Files.write_other w.files "args.go"
      (specContent tmpl (buildModel env.Keccak256 env.Addr) "args.go") "console.sol" hne⟩

/-- C14, as stated, fails: with `console.sol` not creatable `run` returns the
error although `args.go`, absent before, has been created and written. -/
theorem C14_counterexample :
    (run deniedEnv emptyWorld).2 = some "permission denied" ∧
    emptyWorld.files "args.go" = none ∧
    (run deniedEnv emptyWorld).1.files "args.go"
      = some "// Code generated by go generate; DO NOT EDIT.\nrendered args.go.tmpl" := by
  rw [run_console_create_error deniedEnv emptyWorld sampleTemplate "permission denied"
    rfl rfl rfl rfl]
  have hcontent : specContent sampleTemplate (buildModel deniedEnv.Keccak256 deniedEnv.Addr)
      "args.go" = "// Code generated by go generate; DO NOT EDIT.\nrendered args.go.tmpl" := by
    decide
  refine ⟨rfl, rfl, ?_⟩
  exact (Files.write_same emptyWorld.files "args.go" _).trans (congrArg some hcontent)

/-- C15: `run` returns the first error among parsing, creating `args.go`,
executing its template, creating `console.sol` and executing its template, and
makes no call after the failing one: after a parse failure no file is created,
after a failure on `args.go` nothing is attempted on `console.sol`. It returns
no error exactly when parsing and both generations succeed, and `main` exits
with status 1 exactly when `run` returns an error. -/
theorem C15_run_errors (env : Env) (w : World) :
    (∀ err, env.ParseFS = .error err →
      (run env w).2 = some err ∧ (run env w).1.trace = w.trace ++ [Event.parseFS]) ∧
    (∀ tmpl err, env.ParseFS = .ok tmpl → env.Create w.files "args.go" = some err →
      (run env w).2 = some err ∧
      (run env w).1.trace = w.trace ++ [Event.parseFS] ++ [Event.create "args.go"]) ∧
    (∀ tmpl err, env.ParseFS = .ok tmpl → env.Create w.files "args.go" = none →
      (tmpl.ExecuteTemplate ("args.go" ++ ".tmpl") (buildModel env.Keccak256 env.Addr)).2
        = some err →
      (run env w).2 = some err ∧
      (run env w).1.trace = w.trace ++ [Event.parseFS] ++ specGenTrace "args.go") ∧
    (∀ tmpl err, env.ParseFS = .ok tmpl → env.Create w.files "args.go" = none →
      (tmpl.ExecuteTemplate ("args.go" ++ ".tmpl") (buildModel env.Keccak256 env.Addr)).2
        = none →
      env.Create (w.files.write "args.go"
        (specContent tmpl (buildModel env.Keccak256 env.Addr) "args.go")) "console.sol"
        = some err →
      (run env w).2 = some err ∧
      (run env w).1.trace = w.trace ++ [Event.parseFS] ++ specGenTrace "args.go"
        ++ [Event.create "console.sol"]) ∧
    (∀ tmpl, env.ParseFS = .ok tmpl → env.Create w.files "args.go" = none →
      (tmpl.ExecuteTemplate ("args.go" ++ ".tmpl") (buildModel env.Keccak256 env.Addr)).2
        = none →
      env.Create (w.files.write "args.go"
        (specContent tmpl (buildModel env.Keccak256 env.Addr) "args.go")) "console.sol"
        = none →
      (run env w).2 = (tmpl.ExecuteTemplate ("console.sol" ++ ".tmpl")
        (buildModel env.Keccak256 env.Addr)).2 ∧
      (run env w).1.trace = w.trace ++ [Event.parseFS] ++ specGenTrace "args.go"
        ++ specGenTrace "console.sol") ∧
    ((run env w).2 = none ↔
      ∃ tmpl, env.ParseFS = .ok tmpl ∧
        (gen env "args.go" tmpl (buildModel env.Keccak256 env.Addr)
          { files := w.files, trace := w.trace ++ [Event.parseFS] }).2 = none ∧
        (gen env "console.sol" tmpl (buildModel env.Keccak256 env.Addr)
          (gen env "args.go" tmpl (buildModel env.Keccak256 env.Addr)
            { files := w.files, trace := w.trace ++ [Event.parseFS] }).1).2 = none) ∧
    (∀ name tmpl model w0, (gen env name tmpl model w0).2 =
      match env.Create w0.files name with
      | some err => some err
      | none => (tmpl.ExecuteTemplate (name ++ ".tmpl") model).2) ∧
    (main env w).2 = (if (run env w).2 = none then 0 else 1) := by
  refine ⟨fun err hp => ?_, fun tmpl err hp hc => ?_, fun tmpl err hp hc hx => ?_,
    fun tmpl err hp hc hx hc2 => ?_, fun tmpl hp hc hx hc2 => ?_, ?_, gen_error env, ?_⟩
  · rw [run_parse_error env w err hp]
    exact ⟨rfl, rfl⟩
  · rw [run_args_create_error env w tmpl err hp hc]
    exact ⟨rfl, rfl⟩
  · rw [run_args_execute_error env w tmpl err hp hc hx]
    exact ⟨rfl, rfl⟩
  · rw [run_console_create_error env w tmpl err hp hc hx hc2]
    exact ⟨rfl, rfl⟩
  · rw [run_console_created env w tmpl hp hc hx hc2]
    exact ⟨rfl, rfl⟩
  · cases hp : env.ParseFS with
    | error err =>
      rw [run_parse_error env w err hp]
      simp
    | ok tmpl =>
      rw [run_parse_ok env w tmpl hp]
      cases hg : gen env "args.go" tmpl (buildModel env.Keccak256 env.Addr)
          { files := w.files, trace := w.trace ++ [Event.parseFS] } with
      | mk w1 e1 =>
        cases e1 with
        | some err => simp [hg]
        | none => simp [hg]
  · unfold main
    cases hr : run env w with
    | mk w1 e1 =>
      cases e1 <;> simp

/-- C18: the 375 signatures of `genSignatures` are pairwise distinct: no tuple
stands at two indices, and the empty signature, every single-type form and
every tuple of length 2, 3 or 4 over `logArgs` occurs exactly once. -/
theorem C18_signatures_distinct :
    genSignatures.length = 375 ∧
    genSignatures.Nodup ∧
    (∀ (i j : Nat) (hi : i < genSignatures.length) (hj : j < genSignatures.length),
      genSignatures[i] = genSignatures[j] → i = j) ∧
    genSignatures.countP (fun s => decide (s = [])) = 1 ∧
    (∀ t ∈ specSingleTypes, genSignatures.countP (fun s => decide (s = [t])) = 1) ∧
    (∀ t : List String, (t.length = 2 ∨ t.length = 3 ∨ t.length = 4) →
      (∀ x ∈ t, x ∈ logArgs) → genSignatures.countP (fun s => decide (s = t)) = 1) := by
  have hnd := genSignatures_nodup
  have hempty : [] ∈ genSignatures := by
    rw [genSignatures_blocks]
    simp
  have hsingle := mem_genSignatures_single
  have hpower := mem_genSignatures_power
  refine ⟨genSignatures_length_counts.1, hnd, ?_⟩
  generalize genSignatures = sigs at hnd hempty hsingle hpower ⊢
  refine ⟨?_, ?_, ?_, ?_⟩
  · intro i j hi hj h
    exact (hnd.getElem_inj_iff).mp h
  · exact List.count_eq_one_of_mem hnd hempty
  · intro t ht
    exact List.count_eq_one_of_mem hnd (hsingle t ht)
  · intro t hlen hall
    exact List.count_eq_one_of_mem hnd
      (hpower t.length hlen t ((mem_specPower logArgs _ t).mpr ⟨rfl, hall⟩))

/-- C19: on tuples whose type names are non-empty and hold no comma the
canonical text "log(" + join(a, ",") + ")" is injective, and so the 375 `Sig`
strings of the model are pairwise distinct. -/
theorem C19_sig_injective :
    (∀ a b : List String, (∀ t ∈ a, t ≠ "" ∧ comma ∉ t.data) →
      (∀ t ∈ b, t ≠ "" ∧ comma ∉ t.data) →
      "log(" ++ stringsJoin a "," ++ ")" = "log(" ++ stringsJoin b "," ++ ")" → a = b) ∧
    ",".data = [comma] ∧
    (∀ (Keccak256 : List UInt8 → Digest) (Addr : Address),
      ((buildModel Keccak256 Addr).Args.map fun e => e.Sig).length = 375 ∧
      ((buildModel Keccak256 Addr).Args.map fun e => e.Sig).Nodup) := by
  have hinj : ∀ a b : List String, (∀ t ∈ a, t ≠ "" ∧ comma ∉ t.data) →
      (∀ t ∈ b, t ≠ "" ∧ comma ∉ t.data) →
      "log(" ++ stringsJoin a "," ++ ")" = "log(" ++ stringsJoin b "," ++ ")" → a = b :=
    fun a b ha hb h => stringsJoin_comma_injective a b ha hb (sigText_cancel _ _ h)
  refine ⟨hinj, rfl, fun Keccak256 Addr => ⟨?_, ?_⟩⟩
  · rw [List.length_map, buildModel_args, List.length_map]
    exact genSignatures_length_counts.1
  · rw [buildModel_args, List.map_map]
    refine List.Nodup.map_on ?_ genSignatures_nodup
    intro x hx y hy hxy
    apply hinj x y (genSignatures_wellFormed x hx) (genSignatures_wellFormed y hy)
    simpa [specEntry, stringsJoin_eq_intercalate] using hxy

end Console
